import Mathlib

/-!
Verification development for the reward-distribution engine of the
diversified-rewards-token repository.

The JavaScript source keeps token amounts as `BigInt` (modelled as `ℕ` / `ℤ`)
but routes several computations through IEEE-754 double precision (`Number`).
Doubles are modelled exactly as the rationals they denote: `fpRound` rounds a
rational to the nearest 53-bit-significand dyadic rational (ties to even),
which is the value semantics of every JS arithmetic primitive in the normal
range (overflow and subnormals do not arise at the magnitudes the engine
handles; the exponent search below covers binary exponents ±1200, far beyond
the double range).
-/

set_option allowUnsafeReducibility true
set_option maxRecDepth 100000
attribute [local semireducible] Rat.mul Rat.add Rat.inv Rat.sub Rat.neg Rat.div

namespace DRT

/-- Round a rational to the nearest integer, ties to even
(the IEEE-754 default rounding applied to a scaled significand). -/
def rne (m : ℚ) : ℤ :=
  if m - (⌊m⌋ : ℚ) < 1/2 then ⌊m⌋
  else if 1/2 < m - (⌊m⌋ : ℚ) then ⌊m⌋ + 1
  else if ⌊m⌋ % 2 = 0 then ⌊m⌋ else ⌊m⌋ + 1

/-- Raise the exponent `e` until `2 ^ (e+1) > q`; fuel-bounded so that it
computes by kernel reduction. -/
def expUp (q : ℚ) : ℕ → ℤ → ℤ
  | 0, e => e
  | f + 1, e => if 2 ^ (e + 1) ≤ q then expUp q f (e + 1) else e

/-- Lower the exponent `e` until `2 ^ e ≤ q`; fuel-bounded. -/
def expDown (q : ℚ) : ℕ → ℤ → ℤ
  | 0, e => e
  | f + 1, e => if q < 2 ^ e then expDown q f (e - 1) else e

/-- `⌊log₂ q⌋` for `0 < q` (within the fuel window `2^-1200 ≤ q < 2^1201`). -/
def qlog2 (q : ℚ) : ℤ :=
  if 1 ≤ q then expUp q 1200 0 else expDown q 1200 0

/-- Round a rational to the nearest IEEE-754 binary64 value (normal range):
scale into `[2^52, 2^53)`, round to nearest integer significand with ties to
even, and scale back. -/
def fpRound (q : ℚ) : ℚ :=
  if q = 0 then 0
  else
    (if q < 0 then -1 else 1) *
      (rne (|q| * 2 ^ (-(qlog2 |q| - 52))) : ℚ) * 2 ^ (qlog2 |q| - 52)

/-- JS `Number(x)` on a `BigInt` / integer literal. -/
def fpOfNat (n : ℕ) : ℚ := fpRound n

/-- JS double multiplication. -/
def fpMul (x y : ℚ) : ℚ := fpRound (x * y)

/-- JS double division. -/
def fpDiv (x y : ℚ) : ℚ := fpRound (x / y)

/-- `TOTAL_SUPPLY = 1_000_000_000n * 10n ** 9n` (src/src/config/constants.js). -/
def TOTAL_SUPPLY : ℕ := 10 ^ 18

/-- `BATCH_SIZE` (src/src/config/constants.js). -/
def BATCH_SIZE : ℕ := 19

/-- The float share expression of src/src/services/distribution.js lines
150-151: `(Number(holderBalance) * Number(amount)) / Number(totalSupplyBig)`. -/
def shareFloat (b p T : ℕ) : ℚ :=
  fpDiv (fpMul (fpOfNat b) (fpOfNat p)) (fpOfNat T)

/-- Line 152: `BigInt(Math.max(Math.floor(shareFloat), isBtc ? 1 : 0))`. -/
def rawShare (isBtc : Bool) (b p T : ℕ) : ℤ :=
  max ⌊shareFloat b p T⌋ (if isBtc then 1 else 0)

/-- `rawShare` as a natural number (it is never negative thanks to the
`Math.max` with 0 resp. 1). -/
def rawShareN (isBtc : Bool) (b p T : ℕ) : ℕ :=
  (rawShare isBtc b p T).toNat

/-- The share the spec prescribes: `floor(holderBalance * poolAmount /
totalSupply)` in exact integer arithmetic (spec §4.4). -/
def specExactShare (b p T : ℕ) : ℕ := b * p / T


/-- A holder snapshot as consumed by `distributeToHolders`
(src/src/services/distribution.js lines 103-344).  `bal` is the raw token
balance (`BigInt(holder.amount)`); `valid` records whether the on-ledger
destination checks pass (system-owned account for native transfers, Ed25519
curve point for token transfers, lines 166-185); `throws` records whether the
per-holder ledger operations (settlement-account lookup/creation, lines
188-247) raise an exception after exhausting their retries. -/
structure HolderIn where
  bal : ℕ
  valid : Bool
  throws : Bool
deriving DecidableEq

/-- Outcome of the share-assignment loop of `distributeToHolders`:
the transfer instructions added (holder, share), the final running sum
`totalDistributed`, and whether the loop aborted with an exception. -/
structure DistResult where
  transfers : List (HolderIn × ℕ)
  td : ℕ
  aborted : Bool
deriving DecidableEq

/-- Lines 150-157: the raw share followed by the running-sum clamp
`if (totalDistributed + share > amountBig) share = amountBig - totalDistributed`. -/
def clampedShare (isBtc : Bool) (p T td b : ℕ) : ℕ :=
  if p < td + rawShareN isBtc b p T then p - td else rawShareN isBtc b p T

/-- The share-assignment loop of `distributeToHolders`
(src/src/services/distribution.js lines 141-344), with the batch grouping
abstracted away (sending a batch does not change any share, the running sum,
or which holders are processed).  Faithful control flow:
a zero (possibly clamped) share `continue`s (lines 158-161), skipping the
stop check of line 338; `totalDistributed += share` (line 163) happens before
the destination checks, so invalid holders consume budget but receive no
instruction (lines 166-185); a per-holder exception reaches the `catch` of
line 333, whose `failedHolders.push({ holder, share })` references the
block-scoped `share` of line 152, which is not in scope there — the resulting
ReferenceError aborts the whole distribution; after a fully processed holder,
`if (totalDistributed >= amountBig) break` (line 338). -/
def distLoop (isBtc : Bool) (p T : ℕ) : List HolderIn → ℕ → DistResult
  | [], td => ⟨[], td, false⟩
  | h :: rest, td =>
    if clampedShare isBtc p T td h.bal = 0 then
      distLoop isBtc p T rest td
    else if h.valid = false then
      distLoop isBtc p T rest (td + clampedShare isBtc p T td h.bal)
    else if h.throws then
      ⟨[], td + clampedShare isBtc p T td h.bal, true⟩
    else if p ≤ td + clampedShare isBtc p T td h.bal then
      ⟨[(h, clampedShare isBtc p T td h.bal)], td + clampedShare isBtc p T td h.bal, false⟩
    else
      let r := distLoop isBtc p T rest (td + clampedShare isBtc p T td h.bal)
      ⟨(h, clampedShare isBtc p T td h.bal) :: r.transfers, r.td, r.aborted⟩

/-- Total amount carried by a list of transfer instructions. -/
def sharesSum (l : List (HolderIn × ℕ)) : ℕ := (l.map fun x => x.2).sum

/-- State threaded through the batching loop of `distributeToHolders`
(src/src/services/distribution.js lines 115-344): `batch` holds the transfer
instructions of the transaction under construction (`batchTx`), `count` is
`instructionsCount`, `sent` the batches whose submission confirmed, `failedQ`
is `failedHolders`, `bIdx` counts submissions (to consult the submission
outcome environment), `failedBatchOps` is bookkeeping recording the actual
instructions of every batch whose submission failed (for comparison with what
the code re-queues), `aborted` records the ReferenceError abort of the
`catch` at line 333. -/
structure BatchState where
  td : ℕ
  count : ℕ
  batch : List (HolderIn × ℕ)
  sent : List (List (HolderIn × ℕ))
  failedQ : List (HolderIn × ℕ)
  failedBatchOps : List (List (HolderIn × ℕ))
  bIdx : ℕ
  aborted : Bool
deriving DecidableEq

/-- Lines 305-317: on a failed batch submission the code walks
`for (let i = 0; i < instructionsCount; i++) { const h = holders[i]; ... }`,
i.e. the first `instructionsCount` entries of the WHOLE holder list (not the
batch), recomputes each raw (unclamped) share, and queues those with a
positive share. -/
def requeue (isBtc : Bool) (p T : ℕ) (allHolders : List HolderIn) (count : ℕ) :
    List (HolderIn × ℕ) :=
  (allHolders.take count).filterMap fun h =>
    if 0 < rawShareN isBtc h.bal p T then some (h, rawShareN isBtc h.bal p T) else none

/-- Submitting the current batch (lines 273-332 inline, 346-393 for the final
batch): on success after internal retries the batch is recorded as sent; on
final failure the first `count` holders of the whole list are re-queued. -/
def flushBatch (isBtc : Bool) (p T : ℕ) (allHolders : List HolderIn)
    (sendFailsAt : ℕ → Bool) (s : BatchState) : BatchState :=
  if sendFailsAt s.bIdx then
    { s with batch := [], count := 0, bIdx := s.bIdx + 1,
             failedQ := s.failedQ ++ requeue isBtc p T allHolders s.count,
             failedBatchOps := s.failedBatchOps ++ [s.batch] }
  else
    { s with batch := [], count := 0, bIdx := s.bIdx + 1,
             sent := s.sent ++ [s.batch] }

/-- The batching loop of `distributeToHolders` (lines 141-344), holder by
holder; same control flow as `distLoop` plus the batch bookkeeping:
an instruction is appended to the open batch (line 256/175), the batch is
submitted when `instructionsCount >= BATCH_SIZE || totalDistributed >=
amountBig` (line 273), and after an inline submission the loop stops when
`totalDistributed >= amountBig` (line 338). -/
def batchLoop (isBtc : Bool) (p T bs : ℕ) (allHolders : List HolderIn)
    (sendFailsAt : ℕ → Bool) : List HolderIn → BatchState → BatchState
  | [], s => s
  | h :: rest, s =>
    if clampedShare isBtc p T s.td h.bal = 0 then
      batchLoop isBtc p T bs allHolders sendFailsAt rest s
    else if h.valid = false then
      batchLoop isBtc p T bs allHolders sendFailsAt rest
        { s with td := s.td + clampedShare isBtc p T s.td h.bal }
    else if h.throws then
      { s with td := s.td + clampedShare isBtc p T s.td h.bal, aborted := true }
    else
      let s1 : BatchState :=
        { s with td := s.td + clampedShare isBtc p T s.td h.bal,
                 count := s.count + 1,
                 batch := s.batch ++ [(h, clampedShare isBtc p T s.td h.bal)] }
      if bs ≤ s1.count ∨ p ≤ s1.td then
        let s2 := flushBatch isBtc p T allHolders sendFailsAt s1
        if p ≤ s1.td then s2
        else batchLoop isBtc p T bs allHolders sendFailsAt rest s2
      else batchLoop isBtc p T bs allHolders sendFailsAt rest s1

/-- The one second pass over `failedHolders` (lines 395-524): each entry is
retried individually, exactly once (with ledger-level retries folded into the
per-entry outcome `retryOk`); entries that still fail are logged and dropped
(the `catch` of line 520 only logs). -/
def secondPass (retryOk : ℕ → Bool) (q : List (HolderIn × ℕ)) : List (HolderIn × ℕ) :=
  (q.enum.filter fun e => retryOk e.1).map Prod.snd

/-- Overall outcome of `distributeToHolders` (lines 103-529). -/
structure DispatchResult where
  sent : List (List (HolderIn × ℕ))
  failedBatchOps : List (List (HolderIn × ℕ))
  failedQ : List (HolderIn × ℕ)
  retried : List (HolderIn × ℕ)
  td : ℕ
  aborted : Bool
deriving DecidableEq

/-- `distributeToHolders`: run the batching loop, submit the remaining
partial batch (lines 346-393), then run the one second pass over the failed
queue (lines 395-524).  An abort (the line-333 ReferenceError) propagates out
of the function, so neither the final submission nor the second pass runs. -/
def distributeToHoldersModel (isBtc : Bool) (p T bs : ℕ) (holders : List HolderIn)
    (sendFailsAt retryOk : ℕ → Bool) : DispatchResult :=
  let s := batchLoop isBtc p T bs holders sendFailsAt holders
    ⟨0, 0, [], [], [], [], 0, false⟩
  if s.aborted then
    ⟨s.sent, s.failedBatchOps, s.failedQ, [], s.td, true⟩
  else
    let s2 := if 0 < s.count then flushBatch isBtc p T holders sendFailsAt s else s
    ⟨s2.sent, s2.failedBatchOps, s2.failedQ, secondPass retryOk s2.failedQ, s2.td, false⟩

/-- Environment of one `distributeRewards` call
(src/src/services/distribution.js lines 530-745): the engine's payout-asset
balance before the swap (lines 542-574) and after it (lines 586-598), the
output amount the swap collaborator itself reports (which the code never
reads), the payout-asset kind and the holder snapshot. -/
structure RewardEnv where
  before : ℕ
  after : ℕ
  reported : ℕ
  isBtc : Bool
  holders : List HolderIn
deriving DecidableEq

/-- Lines 600-602: `tokensReceived = afterAmount - beforeAmount;
if (tokensReceived <= 0n) throw new Error("Swap failed - no tokens
received")`.  The proceeds are the balance delta; the collaborator's
`reported` field is not consulted. -/
def verifySwap (env : RewardEnv) : Except String ℤ :=
  if (env.after : ℤ) - (env.before : ℤ) ≤ 0 then
    Except.error "Swap failed - no tokens received"
  else
    Except.ok ((env.after : ℤ) - (env.before : ℤ))

/-- Line 604: `toDistribute = (tokensReceived * 80n) / 100n`. -/
def splitToDistribute (r : ℕ) : ℕ := r * 80 / 100

/-- Line 605: `toTreasury = (tokensReceived * 17n) / 100n`. -/
def splitToTreasury (r : ℕ) : ℕ := r * 17 / 100

/-- Line 606: `toSideWallet = (tokensReceived * 3n) / 100n`. -/
def splitToSideWallet (r : ℕ) : ℕ := r * 3 / 100

/-- What one `distributeRewards` call produces. -/
structure RewardResult where
  received : ℕ
  toDistribute : ℕ
  toTreasury : ℕ
  toSideWallet : ℕ
  holderTransfers : List (HolderIn × ℕ)
  treasuryTransfers : List ℕ
  sideTransfers : List ℕ
deriving DecidableEq

/-- `distributeRewards` (lines 530-745): verify the swap via the balance
delta, split the proceeds 80/17/3, and distribute the holder pool.  The
entire treasury- and side-wallet transfer block (lines 608-732) is commented
out in this revision, so no treasury or side-wallet transfer is emitted; a
holder-loop abort (the line-333 ReferenceError in `distributeToHolders`)
propagates as an error. -/
def distributeRewardsModel (env : RewardEnv) : Except String RewardResult :=
  match verifySwap env with
  | Except.error e => Except.error e
  | Except.ok recv =>
    let r := recv.toNat
    let d := distLoop env.isBtc (splitToDistribute r) TOTAL_SUPPLY env.holders 0
    if d.aborted then Except.error "holder processing aborted"
    else
      Except.ok ⟨r, splitToDistribute r, splitToTreasury r, splitToSideWallet r,
                 d.transfers, [], []⟩

/-- `MINIMUM_USD_VALUE` (src/src/index.js line 146, later revision). -/
def MINIMUM_USD_VALUE : ℕ := 20

/-- Number of `OUTPUT_MINTS` entries (src/src/config/constants.js). -/
def OUTPUT_MINTS_LEN : ℕ := 4

/-- State surviving across cycles: the carry-over accumulator
(`accumulatedAmount`, src/src/index.js line 181) and the module-global
round-robin index (`currentOutputIndex`,
src/src/services/distribution.js line 29). -/
structure CycleState where
  carry : ℕ
  idx : ℕ
deriving DecidableEq

/-- External inputs of one `runDistribution` cycle (src/src/index.js lines
183-260): the amount withdrawn this cycle (0 when `withdrawFees` failed),
the USD price per whole token (the fetched value, or the hardcoded fallback
when the oracle failed), and the outcome of each `distributeRewards` attempt
of the retry loop (`true` = the attempt ran to completion). -/
structure CycleEnv where
  withdrawn : ℕ
  price : ℚ
  attemptOk : ℕ → Bool

/-- Lines 219-220: `totalUsdValue = (Number(totalAmount) / 10 ** drtDecimals)
* drtPriceUsd` in double arithmetic (`drtDecimals = 9`). -/
def usdValue (total : ℕ) (price : ℚ) : ℚ :=
  fpMul (fpDiv (fpOfNat total) ((10 : ℚ) ^ 9)) price

/-- `retryOperation(op, 3, 5000)` (lines 156-169, 236-243): attempts run
until the first success, at most `fuel` of them; returns how many attempts
were started (each one calls `distributeRewards`). -/
def attemptsRun (f : ℕ → Bool) : ℕ → ℕ → ℕ
  | 0, _ => 0
  | fuel + 1, i => if f i then 1 else 1 + attemptsRun f fuel (i + 1)

/-- `currentOutputIndex = (currentOutputIndex + 1) % OUTPUT_MINTS.length`
(src/src/services/distribution.js lines 531-532), executed once at the start
of every `distributeRewards` call, iterated over the attempts of a cycle. -/
def advanceIdx : ℕ → ℕ → ℕ
  | 0, i => i
  | n + 1, i => advanceIdx n ((i + 1) % OUTPUT_MINTS_LEN)

/-- One `runDistribution` cycle (src/src/index.js lines 183-260, later
revision): compute `totalAmount = withdrawnAmount + accumulatedAmount`
(line 218) and its USD value (lines 219-220); below the threshold, skip and
carry the whole pool (lines 224-232, `distributeRewards` never runs); above
it, when the pool is positive, run `distributeRewards` under
`retryOperation(·, 3, 5000)` — each attempt advances the round-robin index —
and reset the accumulator whether or not the attempts succeeded (lines
236-252 set `accumulatedAmount = 0n` on both branches).  Returns the new
state and the number of `distributeRewards` calls performed. -/
def runDistribution (env : CycleEnv) (st : CycleState) : CycleState × ℕ :=
  if usdValue (env.withdrawn + st.carry) env.price < (MINIMUM_USD_VALUE : ℚ) then
    (⟨env.withdrawn + st.carry, st.idx⟩, 0)
  else if 0 < env.withdrawn + st.carry then
    (⟨0, advanceIdx (attemptsRun env.attemptOk 3 0) st.idx⟩, attemptsRun env.attemptOk 3 0)
  else
    (⟨st.carry, st.idx⟩, 0)

/-- `DOLLARS_THRESHOLD` of the minimum-balance policy
(src/unnamed/part_001 line 360). -/
def DOLLARS_THRESHOLD : ℕ := 15

/-- src/unnamed/part_001 lines 361-363: `MINIMUM_BALANCE =
BigInt(Math.ceil((DOLLARS_THRESHOLD / drtPriceUsd) * 10 ** DRT_DECIMALS))`
with `DRT_DECIMALS = 9`, in double arithmetic (`Math.ceil` is exact on a
double). -/
def minimumBalance (price : ℚ) : ℤ :=
  ⌈fpMul (fpDiv (DOLLARS_THRESHOLD : ℚ) price) ((10 : ℚ) ^ 9)⌉

/-- src/unnamed/part_001 lines 405-413: `share =
BigInt(Math.floor(shareFloat))`, then the BTC minimum-unit clamp
`if (isBtc && share === 0n && holderBalance > 0n) share = 1n`. -/
def rawShareUSD (isBtc : Bool) (b p T : ℕ) : ℕ :=
  if isBtc ∧ (⌊shareFloat b p T⌋).toNat = 0 ∧ 0 < b then 1
  else (⌊shareFloat b p T⌋).toNat

/-- Lines 415-418: the running-sum clamp, as in the other revision. -/
def clampedShareUSD (isBtc : Bool) (p T td b : ℕ) : ℕ :=
  if p < td + rawShareUSD isBtc b p T then p - td else rawShareUSD isBtc b p T

/-- The share-assignment loop of the `distributeToHolders` revision of
src/unnamed/part_001 (lines 385-600), which additionally skips zero-balance
holders (lines 394-397) and holders at or below `MINIMUM_BALANCE`
(lines 398-403) before computing any share; the remaining control flow
(zero-share `continue`, destination checks, the out-of-scope `share` in the
`catch`, the stop check) is as in `distLoop`. -/
def distLoopUSD (isBtc : Bool) (price : ℚ) (p T : ℕ) : List HolderIn → ℕ → DistResult
  | [], td => ⟨[], td, false⟩
  | h :: rest, td =>
    if h.bal = 0 then
      distLoopUSD isBtc price p T rest td
    else if (h.bal : ℤ) ≤ minimumBalance price then
      distLoopUSD isBtc price p T rest td
    else if clampedShareUSD isBtc p T td h.bal = 0 then
      distLoopUSD isBtc price p T rest td
    else if h.valid = false then
      distLoopUSD isBtc price p T rest (td + clampedShareUSD isBtc p T td h.bal)
    else if h.throws then
      ⟨[], td + clampedShareUSD isBtc p T td h.bal, true⟩
    else if p ≤ td + clampedShareUSD isBtc p T td h.bal then
      ⟨[(h, clampedShareUSD isBtc p T td h.bal)],
        td + clampedShareUSD isBtc p T td h.bal, false⟩
    else
      let r := distLoopUSD isBtc price p T rest (td + clampedShareUSD isBtc p T td h.bal)
      ⟨(h, clampedShareUSD isBtc p T td h.bal) :: r.transfers, r.td, r.aborted⟩

theorem sharesSum_nil : sharesSum [] = 0 := rfl

theorem sharesSum_cons (x : HolderIn × ℕ) (l : List (HolderIn × ℕ)) :
    sharesSum (x :: l) = x.2 + sharesSum l := by
  simp [sharesSum]

theorem clampedShare_add_le (isBtc : Bool) (p T td b : ℕ) (h : td ≤ p) :
    td + clampedShare isBtc p T td b ≤ p := by
  unfold clampedShare
  split_ifs <;> omega

/-- Loop invariant for `distLoop`: the running sum never exceeds the pool,
never decreases, and dominates the sum of the issued transfer shares. -/
theorem distLoop_invariant (isBtc : Bool) (p T : ℕ) :
    ∀ (hs : List HolderIn) (td : ℕ), td ≤ p →
      (distLoop isBtc p T hs td).td ≤ p ∧
      td ≤ (distLoop isBtc p T hs td).td ∧
      sharesSum (distLoop isBtc p T hs td).transfers + td ≤ (distLoop isBtc p T hs td).td := by
  intro hs
  induction hs with
  | nil =>
    intro td hle
    refine ⟨hle, le_rfl, ?_⟩
    simp [distLoop, sharesSum]
  | cons h rest ih =>
    intro td hle
    have hcl := clampedShare_add_le isBtc p T td h.bal hle
    simp only [distLoop]
    split_ifs with h1 h2 h3 h4
    · exact ih td hle
    · have := ih (td + clampedShare isBtc p T td h.bal) hcl
      omega
    · simp only [sharesSum_nil]
      omega
    · simp only [sharesSum_cons, sharesSum_nil]
      omega
    · have := ih (td + clampedShare isBtc p T td h.bal) hcl
      simp only [sharesSum_cons]
      omega

/-- Once the running sum has reached the pool, every further holder is
clamped to a zero share and skipped. -/
theorem distLoop_saturated (isBtc : Bool) (p T : ℕ) :
    ∀ (hs : List HolderIn) (td : ℕ), p ≤ td →
      distLoop isBtc p T hs td = ⟨[], td, false⟩ := by
  intro hs
  induction hs with
  | nil => intro td _; rfl
  | cons h rest ih =>
    intro td hge
    have hc : clampedShare isBtc p T td h.bal = 0 := by
      unfold clampedShare; split_ifs <;> omega
    simp [distLoop, hc, ih td hge]

/-- Holders appended after a saturating prefix change nothing. -/
theorem distLoop_append_saturated (isBtc : Bool) (p T : ℕ) :
    ∀ (hs more : List HolderIn) (td : ℕ), td ≤ p →
      p ≤ (distLoop isBtc p T hs td).td →
      distLoop isBtc p T (hs ++ more) td = distLoop isBtc p T hs td := by
  intro hs
  induction hs with
  | nil =>
    intro more td hle hsat
    simp only [distLoop] at hsat
    simp only [List.nil_append]
    exact distLoop_saturated isBtc p T more td hsat
  | cons h rest ih =>
    intro more td hle hsat
    have hcl := clampedShare_add_le isBtc p T td h.bal hle
    simp only [List.cons_append, distLoop, List.append_eq] at hsat ⊢
    split_ifs with h1 h2 h3 h4 <;> split_ifs at hsat
    · exact ih more td hle hsat
    · exact ih more (td + clampedShare isBtc p T td h.bal) hcl hsat
    · rfl
    · rfl
    · rw [ih more (td + clampedShare isBtc p T td h.bal) hcl hsat]

/-- Claim C2: for every holder list and pool amount, the sum of shares the
share-assignment loop issues never exceeds the pool amount, and once the
running sum has reached the pool amount, appending further holders changes
nothing — they receive nothing that cycle (src/src/services/distribution.js
lines 155-161 and 338-343). -/
theorem c2_running_sum_clamp (isBtc : Bool) (p T : ℕ) (hs more : List HolderIn) :
    sharesSum (distLoop isBtc p T hs 0).transfers ≤ p ∧
    (p ≤ (distLoop isBtc p T hs 0).td →
      distLoop isBtc p T (hs ++ more) 0 = distLoop isBtc p T hs 0) := by
  have hinv := distLoop_invariant isBtc p T hs 0 (Nat.zero_le p)
  exact ⟨by omega, fun hp => distLoop_append_saturated isBtc p T hs more 0 (Nat.zero_le p) hp⟩

/-- Witness for C2 at a concrete input: one holder whose share saturates a
pool of 5 (balance 100 of supply 100), so the appended second holder is not
processed. -/
theorem c2_witness :
    sharesSum (distLoop false 5 100 [⟨100, true, false⟩] 0).transfers ≤ 5 ∧
    distLoop false 5 100 ([⟨100, true, false⟩] ++ [⟨50, true, false⟩]) 0 =
      distLoop false 5 100 [⟨100, true, false⟩] 0 :=
  ⟨(c2_running_sum_clamp false 5 100 [⟨100, true, false⟩] [⟨50, true, false⟩]).1,
   (c2_running_sum_clamp false 5 100 [⟨100, true, false⟩] [⟨50, true, false⟩]).2 (by decide)⟩

theorem floor_natCast_div_natCast (a b : ℕ) : ⌊((a : ℚ) / (b : ℚ))⌋ = (a / b : ℕ) := by
  have h := Rat.floor_intCast_div_natCast (a : ℤ) b
  push_cast at h
  rw [h]
  exact (Int.ofNat_ediv a b).symm

/-- Claim C1, counterexample: with balance `10^18 - 1`, pool `3` and supply
`10^18` the float-based share of src/src/services/distribution.js lines
150-152 is `3` (the balance rounds up to `10^18` in double precision), while
the exact integer `floor(balance * pool / supply)` is `2`; the holder is not
affected by the minimum-unit policy (`isBtc = false`) nor by the running-sum
clamp (the loop issues the full share `3`). -/
theorem c1_counterexample :
    distLoop false 3 (10 ^ 18) [⟨10 ^ 18 - 1, true, false⟩] 0 =
      ⟨[(⟨10 ^ 18 - 1, true, false⟩, 3)], 3, false⟩ ∧
    specExactShare (10 ^ 18 - 1) 3 (10 ^ 18) = 2 ∧
    rawShare false (10 ^ 18 - 1) 3 (10 ^ 18) ≠ (specExactShare (10 ^ 18 - 1) 3 (10 ^ 18) : ℤ) := by
  refine ⟨by decide, by decide, by decide⟩

/-- Claim C1, amended: the share is the floor of the IEEE-754 double
expression `Number(balance) * Number(pool) / Number(supply)`; whenever the
two factors, their product, and the exact quotient are all exactly
representable as doubles, this coincides with the exact integer
`floor(balance * pool / supply)` of the spec. -/
theorem c1_share_exact_when_representable (b p T : ℕ)
    (hb : fpOfNat b = (b : ℚ)) (hp : fpOfNat p = (p : ℚ)) (hT : fpOfNat T = (T : ℚ))
    (hprod : fpRound ((b : ℚ) * (p : ℚ)) = (b : ℚ) * (p : ℚ))
    (hquot : fpRound ((b : ℚ) * (p : ℚ) / (T : ℚ)) = (b : ℚ) * (p : ℚ) / (T : ℚ)) :
    rawShare false b p T = (specExactShare b p T : ℤ) := by
  unfold rawShare shareFloat fpMul fpDiv specExactShare
  rw [hb, hp, hT, hprod, hquot]
  have hcast : (b : ℚ) * (p : ℚ) = ((b * p : ℕ) : ℚ) := by push_cast; ring
  rw [hcast, floor_natCast_div_natCast]
  simp only [Bool.false_eq_true, if_false]
  refine max_eq_left ?_
  exact_mod_cast Int.ofNat_nonneg _

/-- Witness for C1 (amended) at the spec's own example: balance `10^9`,
pool `5 * 10^11`, supply `10^18` — all involved doubles exact — gives the
exact share 500. -/
theorem c1_witness :
    rawShare false (10 ^ 9) (5 * 10 ^ 11) (10 ^ 18) =
      (specExactShare (10 ^ 9) (5 * 10 ^ 11) (10 ^ 18) : ℤ) ∧
    specExactShare (10 ^ 9) (5 * 10 ^ 11) (10 ^ 18) = 500 :=
  ⟨c1_share_exact_when_representable (10 ^ 9) (5 * 10 ^ 11) (10 ^ 18)
      (by decide) (by decide) (by decide) (by decide) (by decide),
   by decide⟩

/-- Claim C5: with holders `[{bal 0}, {bal 50}]` (supply 100, pool 10,
batch size 19) the only submitted batch holds exactly the one operation
`({bal 50}, 5)`; when its submission fails, the code re-queues the first
`instructionsCount = 1` holders of the WHOLE list — the zero-balance holder,
filtered out for its zero share — so the `FailedTransfer` queue is empty: the
failed batch's operation is silently dropped instead of being queued, and the
second pass retries nothing. -/
theorem c5_failed_batch_requeue_wrong :
    (distributeToHoldersModel false 10 100 19 [⟨0, true, false⟩, ⟨50, true, false⟩]
        (fun _ => true) (fun _ => true)).failedBatchOps =
      [[(⟨50, true, false⟩, 5)]] ∧
    (distributeToHoldersModel false 10 100 19 [⟨0, true, false⟩, ⟨50, true, false⟩]
        (fun _ => true) (fun _ => true)).failedQ = [] ∧
    (distributeToHoldersModel false 10 100 19 [⟨0, true, false⟩, ⟨50, true, false⟩]
        (fun _ => true) (fun _ => true)).failedQ ≠ [(⟨50, true, false⟩, 5)] := by
  refine ⟨by decide, by decide, by decide⟩

/-- Claim C9: holder 1 (balance 50, share 5) hits a per-holder exception;
the `catch` of line 333 references the out-of-scope `share` and the resulting
ReferenceError aborts `distributeToHolders`: the failing holder is NOT
queued for a retry (`failedQ = []`, `retried = []`) and holder 2 is never
processed (no batch is ever sent, the running sum stays at holder 1's
share 5). -/
theorem c9_holder_failure_aborts_loop :
    distributeToHoldersModel false 10 100 19 [⟨50, true, true⟩, ⟨30, true, false⟩]
        (fun _ => false) (fun _ => true) =
      ⟨[], [], [], [], 5, true⟩ := by
  decide

/-- Claim C6: the proceeds are the balance delta `after - before`; the
verification step errors exactly when the delta is not positive, on success
it returns exactly the delta, and neither the verification step nor the whole
`distributeRewards` dataflow depends on the swap collaborator's self-reported
output. -/
theorem c6_swap_verified_by_balance_delta (env : RewardEnv) :
    ((verifySwap env).isOk ↔ env.before < env.after) ∧
    (∀ r : ℤ, verifySwap env = Except.ok r → r = (env.after : ℤ) - (env.before : ℤ)) ∧
    (∀ rep : ℕ, verifySwap { env with reported := rep } = verifySwap env) ∧
    (∀ rep : ℕ, distributeRewardsModel { env with reported := rep } =
      distributeRewardsModel env) := by
  refine ⟨?_, ?_, fun _ => rfl, fun _ => rfl⟩
  · by_cases h : (env.after : ℤ) - (env.before : ℤ) ≤ 0
    · rw [verifySwap, if_pos h]
      simp only [Except.isOk, Except.toBool]
      constructor
      · intro hc; exact absurd hc (by simp)
      · intro hlt; exact absurd hlt (by omega)
    · rw [verifySwap, if_neg h]
      simp only [Except.isOk, Except.toBool]
      constructor
      · intro _; omega
      · intro _; trivial
  · intro r hr
    rw [verifySwap] at hr
    split_ifs at hr with h
    exact (Except.ok.inj hr).symm

/-- Witness for C6 at a concrete input: before 5, after 12, reported 999. -/
theorem c6_witness :
    ((verifySwap ⟨5, 12, 999, false, []⟩).isOk ↔ (5 : ℕ) < 12) ∧
    ((7 : ℤ) = (12 : ℤ) - (5 : ℤ)) ∧
    (verifySwap ⟨5, 12, 0, false, []⟩ = verifySwap ⟨5, 12, 999, false, []⟩) ∧
    (distributeRewardsModel ⟨5, 12, 0, false, []⟩ =
      distributeRewardsModel ⟨5, 12, 999, false, []⟩) :=
  ⟨(c6_swap_verified_by_balance_delta ⟨5, 12, 999, false, []⟩).1,
   (c6_swap_verified_by_balance_delta ⟨5, 12, 999, false, []⟩).2.1 7 (by rfl),
   (c6_swap_verified_by_balance_delta ⟨5, 12, 999, false, []⟩).2.2.1 0,
   (c6_swap_verified_by_balance_delta ⟨5, 12, 999, false, []⟩).2.2.2 0⟩

/-- Claim C7, counterexample: a cycle receiving 100 units from the swap
computes the treasury fraction `floor(100 * 17 / 100) = 17 > 0`, yet emits no
treasury (or side-wallet) transfer at all — the transfer block of
src/src/services/distribution.js lines 608-732 is commented out, so the
treasury fraction is not "transferred on-ledger as a single best-effort
transaction with retry". -/
theorem c7_counterexample :
    distributeRewardsModel ⟨0, 100, 100, false, []⟩ =
      Except.ok ⟨100, 80, 17, 3, [], [], []⟩ ∧
    (0 : ℕ) < 17 := by
  refine ⟨by rfl, by decide⟩

/-- Claim C7, amended: every successful `distributeRewards` call computes the
treasury fraction `floor(received * 17 / 100)` (and the side-wallet fraction
`floor(received * 3 / 100)`) but performs no treasury and no side-wallet
transfer in this revision: the transfer block is commented out, and only the
holder-pool fraction `floor(received * 80 / 100)` is distributed. -/
theorem c7_treasury_transfer_disabled (env : RewardEnv) (res : RewardResult)
    (h : distributeRewardsModel env = Except.ok res) :
    res.treasuryTransfers = [] ∧ res.sideTransfers = [] ∧
    res.toTreasury = splitToTreasury res.received ∧
    res.toDistribute = splitToDistribute res.received := by
  unfold distributeRewardsModel at h
  cases hv : verifySwap env with
  | error e => rw [hv] at h; cases h
  | ok recv =>
    rw [hv] at h
    simp only at h
    split_ifs at h with ha
    cases h
    exact ⟨rfl, rfl, rfl, rfl⟩

/-- Witness for C7 (amended) at the counterexample input. -/
theorem c7_witness :
    (⟨100, 80, 17, 3, [], [], []⟩ : RewardResult).treasuryTransfers = [] ∧
    (⟨100, 80, 17, 3, [], [], []⟩ : RewardResult).sideTransfers = [] ∧
    (⟨100, 80, 17, 3, [], [], []⟩ : RewardResult).toTreasury =
      splitToTreasury (⟨100, 80, 17, 3, [], [], []⟩ : RewardResult).received ∧
    (⟨100, 80, 17, 3, [], [], []⟩ : RewardResult).toDistribute =
      splitToDistribute (⟨100, 80, 17, 3, [], [], []⟩ : RewardResult).received :=
  c7_treasury_transfer_disabled ⟨0, 100, 100, false, []⟩ ⟨100, 80, 17, 3, [], [], []⟩
    (by rfl)

/-- Claim C10: for every amount of swap proceeds, the three floor-division
fractions 80% + 17% + 3% never allocate more than was received. -/
theorem c10_split_sums_le (r : ℕ) :
    splitToDistribute r + splitToTreasury r + splitToSideWallet r ≤ r := by
  unfold splitToDistribute splitToTreasury splitToSideWallet
  omega

/-- Claim C3: whenever the USD value of the total pool `withdrawn + carryIn`
is below the threshold, the cycle performs no `distributeRewards` call (hence
no transfers) and the carry-over afterwards is exactly the integer
`withdrawn + carryIn`, so any following cycle's pool `withdrawn' + carryOut`
includes it exactly. -/
theorem c3_below_threshold_carries_exact (env : CycleEnv) (st : CycleState)
    (h : usdValue (env.withdrawn + st.carry) env.price < (MINIMUM_USD_VALUE : ℚ)) :
    runDistribution env st = (⟨env.withdrawn + st.carry, st.idx⟩, 0) ∧
    (∀ env2 : CycleEnv,
      env2.withdrawn + (runDistribution env st).1.carry =
        env2.withdrawn + (env.withdrawn + st.carry)) := by
  unfold runDistribution
  rw [if_pos h]
  exact ⟨rfl, fun _ => rfl⟩

/-- Witness for C3: the spec's own scenario — withdrawn 100 (raw units),
carry 0, fallback price 0.0004 USD — is far below the 20 USD gate, so the
cycle carries 100 and performs no `distributeRewards` call. -/
theorem c3_witness :
    runDistribution ⟨100, 4 / 10000, fun _ => true⟩ ⟨0, 0⟩ = (⟨100, 0⟩, 0) ∧
    (∀ env2 : CycleEnv, env2.withdrawn + (runDistribution ⟨100, 4 / 10000, fun _ => true⟩ ⟨0, 0⟩).1.carry =
      env2.withdrawn + (100 + 0)) :=
  c3_below_threshold_carries_exact ⟨100, 4 / 10000, fun _ => true⟩ ⟨0, 0⟩ (by decide)

theorem advanceIdx_eq (n : ℕ) : ∀ i : ℕ, i < OUTPUT_MINTS_LEN →
    advanceIdx n i = (i + n) % OUTPUT_MINTS_LEN := by
  induction n with
  | zero => intro i hi; simp [advanceIdx, Nat.mod_eq_of_lt hi]
  | succ n ih =>
    intro i hi
    rw [advanceIdx, ih ((i + 1) % OUTPUT_MINTS_LEN) (Nat.mod_lt _ (by decide))]
    unfold OUTPUT_MINTS_LEN
    omega

theorem attemptsRun_bounds (f : ℕ → Bool) :
    ∀ (fuel i : ℕ), 0 < fuel → 1 ≤ attemptsRun f fuel i ∧ attemptsRun f fuel i ≤ fuel := by
  intro fuel
  induction fuel with
  | zero => intro i h; omega
  | succ fuel ih =>
    intro i _
    rw [attemptsRun]
    split_ifs
    · omega
    · rcases Nat.eq_zero_or_pos fuel with hf | hf
      · subst hf; simp [attemptsRun]
      · have := ih (i + 1) hf
        omega

/-- Claim C4, counterexample: a below-threshold cycle (withdrawn 0, any
price) leaves `currentOutputIndex` unchanged at 0 instead of advancing it to
`(0 + 1) % 4 = 1`; and a cycle whose three `distributeRewards` attempts all
fail advances it to 3, not 1 — the index moves once per attempt, not once per
cycle. -/
theorem c4_counterexample :
    (runDistribution ⟨0, 1, fun _ => true⟩ ⟨0, 0⟩).1.idx = 0 ∧
    (runDistribution ⟨10 ^ 12, 1, fun _ => false⟩ ⟨0, 0⟩).1.idx = 3 ∧
    (0 : ℕ) ≠ (0 + 1) % OUTPUT_MINTS_LEN ∧ (3 : ℕ) ≠ (0 + 1) % OUTPUT_MINTS_LEN := by
  refine ⟨by decide, by decide, by decide, by decide⟩

/-- Claim C4, amended: `currentOutputIndex` advances by one per
`distributeRewards` call, modulo the 4-entry payout-asset list: a
below-threshold (or zero-pool) cycle performs no call and leaves the index
unchanged, and a distributing cycle performs between 1 and 3 calls (one per
`retryOperation` attempt until the first success), advancing the index by
that many. -/
theorem c4_index_advances_per_call (env : CycleEnv) (st : CycleState)
    (hidx : st.idx < OUTPUT_MINTS_LEN) :
    (runDistribution env st).1.idx = (st.idx + (runDistribution env st).2) % OUTPUT_MINTS_LEN ∧
    (usdValue (env.withdrawn + st.carry) env.price < (MINIMUM_USD_VALUE : ℚ) →
      (runDistribution env st).2 = 0) ∧
    (¬ usdValue (env.withdrawn + st.carry) env.price < (MINIMUM_USD_VALUE : ℚ) →
      0 < env.withdrawn + st.carry →
      1 ≤ (runDistribution env st).2 ∧ (runDistribution env st).2 ≤ 3) := by
  unfold runDistribution
  split_ifs with h1 h2
  · exact ⟨(Nat.mod_eq_of_lt hidx).symm, fun _ => rfl, fun hc _ => absurd h1 hc⟩
  · refine ⟨advanceIdx_eq _ st.idx hidx, fun hc => absurd hc h1, ?_⟩
    intro _ _
    exact attemptsRun_bounds env.attemptOk 3 0 (by decide)
  · exact ⟨(Nat.mod_eq_of_lt hidx).symm, fun _ => rfl, fun _ hc => absurd hc h2⟩

/-- Witness for C4 (amended): the all-attempts-fail cycle from the
counterexample, starting at index 0. -/
theorem c4_witness :
    (runDistribution ⟨10 ^ 12, 1, fun _ => false⟩ ⟨0, 0⟩).1.idx =
      (0 + (runDistribution ⟨10 ^ 12, 1, fun _ => false⟩ ⟨0, 0⟩).2) % OUTPUT_MINTS_LEN ∧
    (usdValue (10 ^ 12 + 0) 1 < (MINIMUM_USD_VALUE : ℚ) →
      (runDistribution ⟨10 ^ 12, 1, fun _ => false⟩ ⟨0, 0⟩).2 = 0) ∧
    (¬ usdValue (10 ^ 12 + 0) 1 < (MINIMUM_USD_VALUE : ℚ) →
      0 < 10 ^ 12 + 0 →
      1 ≤ (runDistribution ⟨10 ^ 12, 1, fun _ => false⟩ ⟨0, 0⟩).2 ∧
      (runDistribution ⟨10 ^ 12, 1, fun _ => false⟩ ⟨0, 0⟩).2 ≤ 3) :=
  c4_index_advances_per_call ⟨10 ^ 12, 1, fun _ => false⟩ ⟨0, 0⟩ (by decide)

theorem rne_abs (m : ℚ) : |(rne m : ℚ) - m| ≤ 1 / 2 := by
  have h1 : (⌊m⌋ : ℚ) ≤ m := Int.floor_le m
  have h2 : m < ⌊m⌋ + 1 := Int.lt_floor_add_one m
  unfold rne
  split_ifs with hlt hgt hev <;> rw [abs_le] <;> push_cast <;> constructor <;> linarith

theorem expUp_spec (q : ℚ) :
    ∀ (f : ℕ) (e : ℤ), 2 ^ e ≤ q → q < 2 ^ (e + f + 1) →
      2 ^ expUp q f e ≤ q ∧ q < 2 ^ (expUp q f e + 1) := by
  intro f
  induction f with
  | zero =>
    intro e hlo hhi
    rw [expUp]
    refine ⟨hlo, ?_⟩
    simpa using hhi
  | succ f ih =>
    intro e hlo hhi
    rw [expUp]
    split_ifs with h
    · refine ih (e + 1) h ?_
      have harith : e + 1 + (f : ℤ) + 1 = e + ((f : ℕ) + 1 : ℕ) + 1 := by push_cast; ring
      rw [harith]
      exact hhi
    · exact ⟨hlo, not_le.mp h⟩

theorem expDown_spec (q : ℚ) :
    ∀ (f : ℕ) (e : ℤ), q < 2 ^ (e + 1) → 2 ^ (e - f) ≤ q →
      2 ^ expDown q f e ≤ q ∧ q < 2 ^ (expDown q f e + 1) := by
  intro f
  induction f with
  | zero =>
    intro e hhi hlo
    rw [expDown]
    refine ⟨?_, hhi⟩
    simpa using hlo
  | succ f ih =>
    intro e hhi hlo
    rw [expDown]
    split_ifs with h
    · refine ih (e - 1) (by rw [sub_add_cancel]; exact h) ?_
      have harith : e - 1 - (f : ℤ) = e - ((f : ℕ) + 1 : ℕ) := by push_cast; ring
      rw [harith]
      exact hlo
    · exact ⟨not_lt.mp h, hhi⟩

theorem qlog2_spec (q : ℚ) (h1 : 2 ^ (-1200 : ℤ) ≤ q) (h2 : q < 2 ^ (1201 : ℤ)) :
    2 ^ qlog2 q ≤ q ∧ q < 2 ^ (qlog2 q + 1) := by
  unfold qlog2
  split_ifs with hq
  · refine expUp_spec q 1200 0 (by simpa using hq) ?_
    rw [show (0 : ℤ) + (1200 : ℕ) + 1 = 1201 by norm_num]
    exact h2
  · refine expDown_spec q 1200 0 ?_ ?_
    · have hlt : q < 1 := not_le.mp hq
      have h21 : (1 : ℚ) ≤ 2 ^ ((0 : ℤ) + 1) := by
        rw [show (0 : ℤ) + 1 = 1 by ring, zpow_one]
        norm_num
      linarith
    · rw [show (0 : ℤ) - (1200 : ℕ) = -1200 by norm_num]
      exact h1

theorem fpRound_abs_err (q : ℚ) (h1 : 2 ^ (-1200 : ℤ) ≤ q) (h2 : q < 2 ^ (1201 : ℤ)) :
    |fpRound q - q| ≤ q * 2 ^ (-53 : ℤ) := by
  have hq : 0 < q := lt_of_lt_of_le (zpow_pos (by norm_num) _) h1
  have hL := qlog2_spec q h1 h2
  unfold fpRound
  rw [if_neg (ne_of_gt hq), if_neg (not_lt.mpr (le_of_lt hq)), one_mul,
    abs_of_pos hq]
  have h2e : (0 : ℚ) < 2 ^ (qlog2 q - 52) := zpow_pos (by norm_num) _
  have hqm : q = q * 2 ^ (-(qlog2 q - 52)) * 2 ^ (qlog2 q - 52) := by
    rw [mul_assoc, ← zpow_add₀ (by norm_num : (2 : ℚ) ≠ 0)]
    simp
  calc |(rne (q * 2 ^ (-(qlog2 q - 52))) : ℚ) * 2 ^ (qlog2 q - 52) - q|
      = |(rne (q * 2 ^ (-(qlog2 q - 52))) : ℚ) - q * 2 ^ (-(qlog2 q - 52))| *
          2 ^ (qlog2 q - 52) := by
        rw [← abs_of_pos h2e, ← abs_mul, sub_mul]
        rw [← hqm, abs_of_pos h2e]
    _ ≤ (1 / 2) * 2 ^ (qlog2 q - 52) :=
        mul_le_mul_of_nonneg_right (rne_abs _) (le_of_lt h2e)
    _ = 2 ^ qlog2 q * 2 ^ (-53 : ℤ) := by
        rw [← zpow_add₀ (by norm_num : (2 : ℚ) ≠ 0)]
        rw [show (1 : ℚ) / 2 = 2 ^ (-1 : ℤ) by norm_num]
        rw [← zpow_add₀ (by norm_num : (2 : ℚ) ≠ 0)]
        congr 1
        omega
    _ ≤ q * 2 ^ (-53 : ℤ) :=
        mul_le_mul_of_nonneg_right hL.1 (le_of_lt (zpow_pos (by norm_num) _))

theorem fpRound_ge (q : ℚ) (h1 : 2 ^ (-1200 : ℤ) ≤ q) (h2 : q < 2 ^ (1201 : ℤ)) :
    q * (1 - 2 ^ (-53 : ℤ)) ≤ fpRound q := by
  have h := abs_le.mp (fpRound_abs_err q h1 h2)
  have hring : q * (1 - 2 ^ (-53 : ℤ)) = q - q * 2 ^ (-53 : ℤ) := by ring
  linarith only [h.1, hring]

theorem fpRound_le (q : ℚ) (h1 : 2 ^ (-1200 : ℤ) ≤ q) (h2 : q < 2 ^ (1201 : ℤ)) :
    fpRound q ≤ q * (1 + 2 ^ (-53 : ℤ)) := by
  have h := abs_le.mp (fpRound_abs_err q h1 h2)
  have hring : q * (1 + 2 ^ (-53 : ℤ)) = q + q * 2 ^ (-53 : ℤ) := by ring
  linarith only [h.2, hring]

/-- Every holder that receives a transfer instruction in the USD-gated
revision has a balance strictly above `MINIMUM_BALANCE`. -/
theorem distLoopUSD_mem (isBtc : Bool) (price : ℚ) (p T : ℕ) :
    ∀ (hs : List HolderIn) (td : ℕ) (h : HolderIn) (s : ℕ),
      (h, s) ∈ (distLoopUSD isBtc price p T hs td).transfers →
      minimumBalance price < (h.bal : ℤ) := by
  intro hs
  induction hs with
  | nil => intro td h s hm; simp [distLoopUSD] at hm
  | cons hd rest ih =>
    intro td h s hm
    rw [distLoopUSD] at hm
    split_ifs at hm with hb0 hmin hc0 hval hthrows hbreak
    · exact ih td h s hm
    · exact ih td h s hm
    · exact ih td h s hm
    · exact ih _ h s hm
    · simp at hm
    · simp only [List.mem_singleton, Prod.mk.injEq] at hm
      rw [hm.1]
      exact not_le.mp hmin
    · simp only [List.mem_cons, Prod.mk.injEq] at hm
      rcases hm with ⟨he, _⟩ | hm
      · rw [he]
        exact not_le.mp hmin
      · exact ih _ h s hm

/-- Claim C8: in the USD-gated revision (src/unnamed/part_001), a holder
whose raw balance converts at the live price to less than the 15 USD
minimum-balance threshold never receives a transfer instruction: the skip of
lines 398-403 (`holderBalance <= MINIMUM_BALANCE`) catches every such
holder, because the double-rounded `MINIMUM_BALANCE` underestimates the
exact bound `15 * 10^9 / price` by less than one unit.  The price bounds
`2^-15 ≤ price ≤ 2^40` (any realistic oracle quote) keep the double
computation inside the range where that error bound holds. -/
theorem c8_below_usd_threshold_skipped (isBtc : Bool) (price : ℚ) (p T : ℕ)
    (hs : List HolderIn) (h : HolderIn) (s : ℕ)
    (hp1 : 1 / 32768 ≤ price) (hp2 : price ≤ 1099511627776)
    (hmem : (h, s) ∈ (distLoopUSD isBtc price p T hs 0).transfers) :
    ¬ ((h.bal : ℚ) * price < 15 * 10 ^ 9) := by
  intro hlt
  have hpos : (0 : ℚ) < price := lt_of_lt_of_le (by norm_num) hp1
  have hMIN : minimumBalance price < (h.bal : ℤ) :=
    distLoopUSD_mem isBtc price p T hs 0 h s hmem
  obtain ⟨ε, hεdef⟩ : ∃ e : ℚ, e = (2 : ℚ) ^ (-53 : ℤ) := ⟨_, rfl⟩
  have hε : ε = 1 / 9007199254740992 := by rw [hεdef]; decide
  have hεpos : 0 < ε := by rw [hε]; norm_num
  have hεhalf : ε ≤ 1 / 2 := by rw [hε]; norm_num
  obtain ⟨x1, hx1def⟩ : ∃ v : ℚ, v = (15 : ℚ) / price := ⟨_, rfl⟩
  have hx1pos : 0 < x1 := by
    rw [hx1def]; exact div_pos (by norm_num) hpos
  have hx1lo : (15 : ℚ) / 1099511627776 ≤ x1 := by
    rw [hx1def]
    exact (div_le_div_left (by norm_num) (by norm_num) hpos).mpr hp2
  have hx1hi : x1 ≤ 491520 := by
    rw [hx1def, div_le_iff₀ hpos]
    linarith only [hp1]
  have hr1lo : (2 : ℚ) ^ (-1200 : ℤ) ≤ x1 := by
    have ha : (2 : ℚ) ^ (-1200 : ℤ) ≤ 2 ^ (-47 : ℤ) :=
      zpow_le_zpow_right₀ (by norm_num) (by norm_num)
    have hb : (2 : ℚ) ^ (-47 : ℤ) = 1 / 140737488355328 := by decide
    rw [hb] at ha
    have hc : (1 : ℚ) / 140737488355328 ≤ 15 / 1099511627776 := by norm_num
    exact le_trans (le_trans ha hc) hx1lo
  have h50 : (2 : ℚ) ^ (50 : ℤ) ≤ 2 ^ (1201 : ℤ) :=
    zpow_le_zpow_right₀ (by norm_num) (by norm_num)
  have h50v : (2 : ℚ) ^ (50 : ℤ) = 1125899906842624 := by decide
  have hr1hi : x1 < 2 ^ (1201 : ℤ) := by
    linarith only [h50, h50v, hx1hi]
  have ht1lo : x1 * (1 - ε) ≤ fpRound x1 := by
    rw [hεdef]; exact fpRound_ge x1 hr1lo hr1hi
  have ht1hi : fpRound x1 ≤ x1 * (1 + ε) := by
    rw [hεdef]; exact fpRound_le x1 hr1lo hr1hi
  obtain ⟨y, hydef⟩ : ∃ v : ℚ, v = fpRound x1 * 10 ^ 9 := ⟨_, rfl⟩
  have hylo : x1 * 10 ^ 9 * (1 - ε) ≤ y := by
    have hm := mul_le_mul_of_nonneg_right ht1lo (show (0 : ℚ) ≤ 10 ^ 9 by norm_num)
    have hring : x1 * 10 ^ 9 * (1 - ε) = x1 * (1 - ε) * 10 ^ 9 := by ring
    rw [hydef]
    linarith only [hm, hring]
  have hyhi : y ≤ x1 * 10 ^ 9 * (1 + ε) := by
    have hm := mul_le_mul_of_nonneg_right ht1hi (show (0 : ℚ) ≤ 10 ^ 9 by norm_num)
    have hring : x1 * 10 ^ 9 * (1 + ε) = x1 * (1 + ε) * 10 ^ 9 := by ring
    rw [hydef]
    linarith only [hm, hring]
  have hr2lo : (2 : ℚ) ^ (-1200 : ℤ) ≤ y := by
    have hfac : (1 : ℚ) ≤ 10 ^ 9 * (1 - ε) := by linarith only [hεhalf]
    have hm := mul_le_mul_of_nonneg_left hfac hx1pos.le
    have hring : x1 * (10 ^ 9 * (1 - ε)) = x1 * 10 ^ 9 * (1 - ε) := by ring
    have hmono : x1 ≤ x1 * 10 ^ 9 * (1 - ε) := by
      rw [← hring]
      calc x1 = x1 * 1 := by ring
        _ ≤ x1 * (10 ^ 9 * (1 - ε)) := hm
    exact le_trans hr1lo (le_trans hmono hylo)
  have hr2hi : y < 2 ^ (1201 : ℤ) := by
    have hm1 : x1 * 10 ^ 9 ≤ 491520 * 10 ^ 9 :=
      mul_le_mul_of_nonneg_right hx1hi (by norm_num)
    have hm2 : x1 * 10 ^ 9 * (1 + ε) ≤ 491520 * 10 ^ 9 * (1 + ε) :=
      mul_le_mul_of_nonneg_right hm1 (by linarith only [hεpos])
    have hsm : (491520 : ℚ) * 10 ^ 9 * (1 + ε) < 1125899906842624 := by
      rw [hε]; norm_num
    linarith only [hyhi, hm2, hsm, h50, h50v]
  have hminq : y * (1 - ε) ≤ fpRound y := by
    rw [hεdef]; exact fpRound_ge y hr2lo hr2hi
  have hyx : x1 * 10 ^ 9 * (1 - ε) * (1 - ε) ≤ y * (1 - ε) :=
    mul_le_mul_of_nonneg_right hylo (by linarith only [hεhalf])
  have hsq : x1 * 10 ^ 9 * (1 - 2 * ε) ≤ x1 * 10 ^ 9 * (1 - ε) * (1 - ε) := by
    have hdiff : x1 * 10 ^ 9 * (1 - ε) * (1 - ε) - x1 * 10 ^ 9 * (1 - 2 * ε) =
        x1 * 10 ^ 9 * ε ^ 2 := by ring
    have hnn : (0 : ℚ) ≤ x1 * 10 ^ 9 * ε ^ 2 := by positivity
    linarith only [hdiff, hnn]
  have h2eX : x1 * 10 ^ 9 * (2 * ε) ≤ 1 := by
    have hc : (0 : ℚ) ≤ 10 ^ 9 * (2 * ε) := by positivity
    have hm := mul_le_mul_of_nonneg_right hx1hi hc
    have hring : x1 * (10 ^ 9 * (2 * ε)) = x1 * 10 ^ 9 * (2 * ε) := by ring
    have hval : (491520 : ℚ) * (10 ^ 9 * (2 * ε)) ≤ 1 := by
      rw [hε]; norm_num
    linarith only [hm, hring, hval]
  have hkey : x1 * 10 ^ 9 - 1 ≤ fpRound y := by
    have hring : x1 * 10 ^ 9 * (1 - 2 * ε) = x1 * 10 ^ 9 - x1 * 10 ^ 9 * (2 * ε) := by
      ring
    linarith only [hminq, hyx, hsq, h2eX, hring]
  have hunfold : fpMul (fpDiv (DOLLARS_THRESHOLD : ℚ) price) ((10 : ℚ) ^ 9) = fpRound y := by
    rw [fpMul, fpDiv, hydef, hx1def]
    norm_num [DOLLARS_THRESHOLD]
  have hceil : (x1 * 10 ^ 9 - 1 : ℚ) ≤ (minimumBalance price : ℚ) := by
    have hc := Int.le_ceil (fpMul (fpDiv (DOLLARS_THRESHOLD : ℚ) price) ((10 : ℚ) ^ 9))
    rw [hunfold] at hc
    unfold minimumBalance
    rw [hunfold]
    linarith only [hc, hkey]
  have hbalZ : minimumBalance price + 1 ≤ (h.bal : ℤ) := Int.lt_iff_add_one_le.mp hMIN
  have hbalQ : (minimumBalance price : ℚ) + 1 ≤ (h.bal : ℚ) := by exact_mod_cast hbalZ
  have hbalX : (h.bal : ℚ) < x1 * 10 ^ 9 := by
    rw [hx1def, div_mul_eq_mul_div, lt_div_iff₀ hpos]
    linarith only [hlt]
  linarith only [hceil, hbalQ, hbalX]

/-- Witness for C8: price 1/2 USD, a holder with balance `50 * 10^9`
(25 USD, above the 15 USD minimum) receives a share in a concrete run, and
the theorem correctly concludes its USD value is not below the threshold. -/
theorem c8_witness :
    ¬ (((⟨50 * 10 ^ 9, true, false⟩ : HolderIn).bal : ℚ) * (1 / 2) < 15 * 10 ^ 9) :=
  c8_below_usd_threshold_skipped false (1 / 2) 10 (100 * 10 ^ 9)
    [⟨50 * 10 ^ 9, true, false⟩] ⟨50 * 10 ^ 9, true, false⟩ 5
    (by norm_num) (by norm_num) (by decide)


end DRT
